import Mathlib

/-!
The SOCKS5 proxy orchestration of iox (operate/proxy.go).

A shallow embedding of the three entry points of `operate/proxy.go`:

* `ProxyLocal`       : the per-connection task of the plain SOCKS5 listener,
* `ProxyRemote`      : the tunnel client (control reader, dispatch loop, dial task),
* `ProxyRemoteL2L`   : the relay (control reader, end-user acceptor, main loop,
                       forwarding task).

Every goroutine body is translated into a function from the results of the
external calls it makes (reads, accepts, dials, wraps) to the trace of effects
it performs.  The two relay goroutines that share `localConnBuffer` are put
together in a small-step machine whose steps are the statements of the two
loops.

`marshal`, `unmarshal`, the `CTL_*` constants and `MAX_CONNECTION` are declared
in other files of the package; they are parameters here.
-/

namespace Iox

/-- A `net.Conn`, identified by a number. -/
abbrev Conn := Nat

/-- A byte slice. -/
abbrev Bytes := List Nat

/-- The control message `Protocol{CMD, N}`; both fields are `uint8` values. -/
structure Protocol where
  CMD : Nat
  N : Nat
deriving DecidableEq, Repr

/-- The values of the command constants used by `proxy.go`. -/
structure Ctl where
  CTL_CONNECT_ME : Nat
  CTL_CLEANUP : Nat
  CTL_HEARTBEAT : Nat
deriving DecidableEq, Repr

/-- What one call of `readUntilEnd(masterConn)` returns: an error, or a frame. -/
inductive ReadResult
  | err
  | ok (pb : Bytes)
deriving DecidableEq, Repr

/-! ## ProxyRemote: the control reader (lines 81-102) -/

/-- Effects of the control reader of `ProxyRemote`. -/
inductive RemoteEv
  /-- One call of `readUntilEnd(masterConn)`, which returned `r`. -/
  | read (r : ReadResult)
  /-- The send `connectRequest <- n`. -/
  | enqueue (n : Nat)
  /-- The send `endSignal <- struct{}{}`. -/
  | signal
  /-- The deferred `masterConn.Close()`. -/
  | close
deriving DecidableEq, Repr

/-- A run of a reader goroutine over a finite sequence of read results: the
effects performed and whether the goroutine has left its loop (by `return` or
by `os.Exit`).  When `stopped` is `false` the goroutine is in its loop, at the
next call of `readUntilEnd`. -/
structure ReaderRun (Ev : Type) where
  trace : List Ev
  stopped : Bool
deriving DecidableEq, Repr

/-- The run `r`, preceded by the effects `evs`. -/
def ReaderRun.after {Ev : Type} (evs : List Ev) (r : ReaderRun Ev) : ReaderRun Ev :=
  ⟨evs ++ r.trace, r.stopped⟩

/-- The control reader of `ProxyRemote`:
```go
defer masterConn.Close()
for {
    pb, err := readUntilEnd(masterConn)
    if err != nil { continue }
    p, err := unmarshal(pb)
    if err != nil { continue }
    switch p.CMD {
    case CTL_CONNECT_ME: connectRequest <- p.N
    case CTL_CLEANUP:    endSignal <- struct{}{}; return
    }
}
```
The argument lists what the successive calls of `readUntilEnd` return. -/
def remoteControlReader (ctl : Ctl) (unmarshal : Bytes → Option Protocol) :
    List ReadResult → ReaderRun RemoteEv
  | [] => ⟨[], false⟩
  | .err :: rest =>
      (remoteControlReader ctl unmarshal rest).after [.read .err]
  | .ok pb :: rest =>
      match unmarshal pb with
      | none => (remoteControlReader ctl unmarshal rest).after [.read (.ok pb)]
      | some p =>
          if p.CMD = ctl.CTL_CONNECT_ME then
            (remoteControlReader ctl unmarshal rest).after [.read (.ok pb), .enqueue p.N]
          else if p.CMD = ctl.CTL_CLEANUP then
            ⟨[.read (.ok pb), .signal, .close], true⟩
          else
            (remoteControlReader ctl unmarshal rest).after [.read (.ok pb)]

/-- The values sent on `connectRequest`, in order. -/
def enqueuedCounts : List RemoteEv → List Nat
  | [] => []
  | .enqueue n :: evs => n :: enqueuedCounts evs
  | _ :: evs => enqueuedCounts evs

/-- The number of calls of `readUntilEnd` in a trace. -/
def readCount : List RemoteEv → Nat
  | [] => 0
  | .read _ :: evs => readCount evs + 1
  | _ :: evs => readCount evs

/-! ## Connection tasks -/

/-- Effects of a connection task. -/
inductive TaskEv (Ctx : Type)
  /-- One call of `net.DialTimeout("tcp", remote, ...)`. -/
  | dial
  /-- The call `logger.Info(err.Error())`. -/
  | log
  /-- One call of `netio.NewTCPCtx(c, enc)`. -/
  | wrap (c : Conn) (enc : Bool)
  /-- One call of `socks5.HandleConnection(ctx)`. -/
  | handle (ctx : Ctx)
  /-- One call of `netio.PipeForward(r, l)`. -/
  | pipe (r l : Ctx)
  /-- The call `c.Close()`. -/
  | close (c : Conn)
deriving DecidableEq, Repr

/-- Is the effect a dial attempt? -/
def TaskEv.isDial {Ctx : Type} : TaskEv Ctx → Bool
  | .dial => true
  | _ => false

/-- Is the effect a call of the SOCKS5 handler? -/
def TaskEv.isHandle {Ctx : Type} : TaskEv Ctx → Bool
  | .handle _ => true
  | _ => false

/-- Is the effect a call of `PipeForward`? -/
def TaskEv.isPipe {Ctx : Type} : TaskEv Ctx → Bool
  | .pipe _ _ => true
  | _ => false

/-- Is the effect a call of `NewTCPCtx`? -/
def TaskEv.isWrap {Ctx : Type} : TaskEv Ctx → Bool
  | .wrap _ _ => true
  | _ => false

/-- Is the effect `c.Close()`? -/
def TaskEv.isClose {Ctx : Type} (c : Conn) : TaskEv Ctx → Bool
  | .close d => decide (d = c)
  | _ => false

/-- The results of the external calls of one dial task of `ProxyRemote`:
what `net.DialTimeout` returns and what `netio.NewTCPCtx` returns if it is
called (`none` is an error). -/
structure DialOutcome (Ctx : Type) where
  dialRes : Option Conn
  wrapRes : Option Ctx
deriving DecidableEq, Repr

/-- The dial task of `ProxyRemote` (lines 112-128):
```go
conn, err := net.DialTimeout("tcp", remote, ...)
if err != nil { logger.Info(err.Error()); return }
connCtx, err := netio.NewTCPCtx(conn, encrypted)
if err != nil { return }
socks5.HandleConnection(connCtx)
``` -/
def remoteDialTask {Ctx : Type} (encrypted : Bool) (o : DialOutcome Ctx) : List (TaskEv Ctx) :=
  .dial ::
    match o.dialRes with
    | none => [.log]
    | some conn =>
        .wrap conn encrypted ::
          match o.wrapRes with
          | none => []
          | some connCtx => [.handle connCtx]

/-- A run of a connection task that holds deferred closes: the effects performed
and whether the task has returned. -/
structure TaskRun (Ctx : Type) where
  trace : List (TaskEv Ctx)
  returned : Bool
deriving DecidableEq, Repr

/-- The connection task of `ProxyLocal` (lines 30-38):
```go
defer conn.Close()
connCtx, err := netio.NewTCPCtx(conn, encrypted)
if err != nil { return }
socks5.HandleConnection(connCtx)
```
`wrapRes` is what `NewTCPCtx` returns, `handlerReturns` says whether
`HandleConnection` returns; the deferred close runs when the task returns. -/
def localConnTask {Ctx : Type} (encrypted : Bool) (conn : Conn) (wrapRes : Option Ctx)
    (handlerReturns : Bool) : TaskRun Ctx :=
  match wrapRes with
  | none => ⟨[.wrap conn encrypted, .close conn], true⟩
  | some connCtx =>
      if handlerReturns then
        ⟨[.wrap conn encrypted, .handle connCtx, .close conn], true⟩
      else
        ⟨[.wrap conn encrypted, .handle connCtx], false⟩

/-! ## ProxyRemote: the dispatch loop (lines 105-132) -/

/-- What one `select` of the dispatch loop receives. -/
inductive Sel
  /-- The branch `case <-endSignal`. -/
  | endSignal
  /-- The branch `case n := <-connectRequest`. -/
  | connectRequest (n : Nat)
deriving DecidableEq, Repr

/-- The inner loop `for n > 0 { go func() {...}(); n-- }`: the tasks it starts.
`n` is a `uint8`; it is decremented only when positive, so the decrement never
wraps.  `next` is the number of dial tasks started before; `outcome k` gives the
results of the external calls of task number `k`. -/
def dialLoop {Ctx : Type} (encrypted : Bool) (outcome : Nat → DialOutcome Ctx) :
    Nat → Nat → List (List (TaskEv Ctx))
  | 0, _ => []
  | n + 1, next =>
      remoteDialTask encrypted (outcome next) :: dialLoop encrypted outcome n (next + 1)

/-- A run of the dispatch loop: the tasks started, in order, and whether
`ProxyRemote` has returned. -/
structure DispatchRun (Ctx : Type) where
  tasks : List (List (TaskEv Ctx))
  returned : Bool
deriving DecidableEq, Repr

/-- The dispatch loop of `ProxyRemote`:
```go
for {
    select {
    case <-endSignal:          return
    case n := <-connectRequest: for n > 0 { go func() {...}(); n-- }
    }
}
```
The list gives what the successive `select`s receive. -/
def dispatchLoop {Ctx : Type} (encrypted : Bool) (outcome : Nat → DialOutcome Ctx) :
    List Sel → Nat → DispatchRun Ctx
  | [], _ => ⟨[], false⟩
  | .endSignal :: _, _ => ⟨[], true⟩
  | .connectRequest n :: rest, next =>
      ⟨dialLoop encrypted outcome n next ++
          (dispatchLoop encrypted outcome rest (next + n)).tasks,
        (dispatchLoop encrypted outcome rest (next + n)).returned⟩

/-- The number of dial tasks a sequence of `select` results asks for before the
stop signal. -/
def demand : List Sel → Nat
  | [] => 0
  | .endSignal :: _ => 0
  | .connectRequest n :: rest => n + demand rest

/-! ## ProxyRemoteL2L: the control reader (lines 178-198) -/

/-- Effects on the state shared by the goroutines of `ProxyRemoteL2L`. -/
inductive RelayEv
  /-- One call of `readUntilEnd(masterConn)`, which returned `r`. -/
  | read (r : ReadResult)
  /-- The call `masterConn.Write(msg)`. -/
  | write (msg : Bytes)
  /-- The send `localConnBuffer <- c`. -/
  | enqueue (c : Conn)
  /-- The receive `<-localConnBuffer`. -/
  | dequeue
  /-- The call `logger.Success(...)`. -/
  | log
  /-- The call `os.Exit(0)`. -/
  | exit
deriving DecidableEq, Repr

/-- The control reader of `ProxyRemoteL2L`:
```go
for {
    pb, err := readUntilEnd(masterConn)
    if err != nil { continue }
    p, err := unmarshal(pb)
    if err != nil { continue }
    switch p.CMD {
    case CTL_CLEANUP:   logger.Success(...); os.Exit(0)
    case CTL_HEARTBEAT: continue
    }
}
``` -/
def relayControlReader (ctl : Ctl) (unmarshal : Bytes → Option Protocol) :
    List ReadResult → ReaderRun RelayEv
  | [] => ⟨[], false⟩
  | .err :: rest =>
      (relayControlReader ctl unmarshal rest).after [.read .err]
  | .ok pb :: rest =>
      match unmarshal pb with
      | none => (relayControlReader ctl unmarshal rest).after [.read (.ok pb)]
      | some p =>
          if p.CMD = ctl.CTL_CLEANUP then
            ⟨[.read (.ok pb), .log, .exit], true⟩
          else if p.CMD = ctl.CTL_HEARTBEAT then
            (relayControlReader ctl unmarshal rest).after [.read (.ok pb)]
          else
            (relayControlReader ctl unmarshal rest).after [.read (.ok pb)]

/-! ## ProxyRemoteL2L: the forwarding task (lines 225-240) -/

/-- The forwarding task of `ProxyRemoteL2L`:
```go
defer remoteConn.Close()
defer localConn.Close()
remoteConnCtx, err := netio.NewTCPCtx(remoteConn, menc)
if err != nil { return }
localConnCtx, err := netio.NewTCPCtx(localConn, lenc)
if err != nil { return }
netio.PipeForward(remoteConnCtx, localConnCtx)
```
`remoteWrap` and `localWrap` are what the two calls of `NewTCPCtx` return,
`pipeReturns` says whether `PipeForward` returns.  Deferred calls run in reverse
order when the task returns. -/
def forwardTask {Ctx : Type} (menc lenc : Bool) (remoteConn localConn : Conn)
    (remoteWrap localWrap : Option Ctx) (pipeReturns : Bool) : TaskRun Ctx :=
  match remoteWrap with
  | none => ⟨[.wrap remoteConn menc, .close localConn, .close remoteConn], true⟩
  | some remoteConnCtx =>
      match localWrap with
      | none =>
          ⟨[.wrap remoteConn menc, .wrap localConn lenc,
            .close localConn, .close remoteConn], true⟩
      | some localConnCtx =>
          if pipeReturns then
            ⟨[.wrap remoteConn menc, .wrap localConn lenc,
              .pipe remoteConnCtx localConnCtx, .close localConn, .close remoteConn], true⟩
          else
            ⟨[.wrap remoteConn menc, .wrap localConn lenc,
              .pipe remoteConnCtx localConnCtx], false⟩

/-! ## ProxyRemoteL2L: the end-user acceptor (lines 201-215) and the main loop
(lines 217-241), running concurrently around `localConnBuffer` -/

/-- Where the end-user acceptor stands in its loop body. -/
inductive AcceptorPc
  /-- At `localListener.Accept()`. -/
  | accept
  /-- At `localConnBuffer <- localConn`, holding `localConn`. -/
  | send (localConn : Conn)
  /-- At `masterConn.Write(marshal(...))`. -/
  | write
deriving DecidableEq, Repr

/-- Where the main loop stands in its loop body. -/
inductive MainPc
  /-- At `masterListener.Accept()`. -/
  | accept
  /-- At `localConn := <-localConnBuffer`, holding `remoteConn`. -/
  | recv (remoteConn : Conn)
deriving DecidableEq, Repr

/-- The state of the two loops: their program points, the content of
`localConnBuffer` (oldest first), and the history of what they did. -/
structure RelayState where
  accPc : AcceptorPc
  mainPc : MainPc
  buffer : List Conn
  /-- Connections returned by successful `localListener.Accept()`, in order. -/
  localAccepted : List Conn
  /-- Connections returned by successful `masterListener.Accept()`, in order. -/
  remoteAccepted : List Conn
  /-- Connections sent on `localConnBuffer`, in order. -/
  enqueued : List Conn
  /-- Messages the acceptor wrote to `masterConn`, in order. -/
  written : List Bytes
  /-- Forwarding tasks started, as pairs `(remoteConn, localConn)`, in order. -/
  forwarded : List (Conn × Conn)
deriving DecidableEq, Repr

/-- Both loops at their `Accept`, nothing done yet. -/
def relayInit : RelayState :=
  ⟨.accept, .accept, [], [], [], [], [], []⟩

/-- One step of one of the two loops. -/
inductive RelayStep
  /-- Return of `localListener.Accept()`: `none` is an error. -/
  | localAccept (res : Option Conn)
  /-- Completion of `localConnBuffer <- localConn` into the buffer. -/
  | enqueue
  /-- Completion of `localConnBuffer <- localConn` straight into the receive
  `<-localConnBuffer` on which the main loop waits. -/
  | handoff
  /-- The call `masterConn.Write(marshal(Protocol{CMD: CTL_CONNECT_ME, N: 1}))`. -/
  | write
  /-- Return of `masterListener.Accept()`: `none` is an error. -/
  | remoteAccept (res : Option Conn)
  /-- Completion of `localConn := <-localConnBuffer` from the buffer, followed
  by the `go` statement that starts the forwarding task. -/
  | dequeue
deriving DecidableEq, Repr

/-- Steps that are not the return of an `Accept`. -/
def RelayStep.internal : RelayStep → Bool
  | .localAccept _ => false
  | .remoteAccept _ => false
  | _ => true

/-- The step function.  `cap` is the capacity `MAX_CONNECTION/2` of
`localConnBuffer`; a step that the state does not allow gives `none`.
```go
// acceptor                                 // main loop
for {                                       for {
    localConn, err := localListener.Accept()    remoteConn, err := masterListener.Accept()
    if err != nil { continue }                  if err != nil { continue }
    localConnBuffer <- localConn                localConn := <-localConnBuffer
    masterConn.Write(marshal(...))              go func() {...}()
}                                           }
``` -/
def relayStep (cap : Nat) (marshal : Protocol → Bytes) (ctl : Ctl) (st : RelayStep)
    (s : RelayState) : Option RelayState :=
  match st, s.accPc, s.mainPc with
  | .localAccept none, .accept, _ => some s
  | .localAccept (some c), .accept, _ =>
      some { s with accPc := .send c, localAccepted := s.localAccepted ++ [c] }
  | .enqueue, .send c, _ =>
      if s.buffer.length < cap then
        some { s with accPc := .write, buffer := s.buffer ++ [c],
                      enqueued := s.enqueued ++ [c] }
      else none
  | .handoff, .send c, .recv r =>
      if s.buffer = [] then
        some { s with accPc := .write, mainPc := .accept,
                      enqueued := s.enqueued ++ [c],
                      forwarded := s.forwarded ++ [(r, c)] }
      else none
  | .write, .write, _ =>
      some { s with accPc := .accept,
                    written := s.written ++ [marshal ⟨ctl.CTL_CONNECT_ME, 1⟩] }
  | .remoteAccept none, _, .accept => some s
  | .remoteAccept (some r), _, .accept =>
      some { s with mainPc := .recv r, remoteAccepted := s.remoteAccepted ++ [r] }
  | .dequeue, _, .recv r =>
      match s.buffer with
      | [] => none
      | l :: rest =>
          some { s with mainPc := .accept, buffer := rest,
                        forwarded := s.forwarded ++ [(r, l)] }
  | _, _, _ => none

/-- Run a sequence of steps from a state; `none` if one of them is not allowed. -/
def relayRun (cap : Nat) (marshal : Protocol → Bytes) (ctl : Ctl) :
    List RelayStep → RelayState → Option RelayState
  | [], s => some s
  | st :: sts, s =>
      match relayStep cap marshal ctl st s with
      | none => none
      | some t => relayRun cap marshal ctl sts t

/-- The connection the acceptor holds and has not sent yet. -/
def pendingSend : AcceptorPc → List Conn
  | .send c => [c]
  | _ => []

/-- The data connection the main loop holds and has not paired yet. -/
def pendingRecv : MainPc → List Conn
  | .recv r => [r]
  | _ => []

/-- The number of sends on `localConnBuffer` whose CONNECT_ME is not written yet. -/
def pendingWrite : AcceptorPc → Nat
  | .write => 1
  | _ => 0

/-- How the histories, the buffer and the program points of a reachable state
of the two relay loops are related. -/
structure RelayInv (msg : Bytes) (s : RelayState) : Prop where
  local_hist : s.enqueued ++ pendingSend s.accPc = s.localAccepted
  buffer_hist : s.forwarded.map Prod.snd ++ s.buffer = s.enqueued
  remote_hist : s.forwarded.map Prod.fst ++ pendingRecv s.mainPc = s.remoteAccepted
  written_eq : s.written = List.replicate s.written.length msg
  written_len : s.written.length + pendingWrite s.accPc = s.enqueued.length

/-! ## Sample parameters for concrete runs -/

/-- Sample values of the command constants. -/
def sampleCtl : Ctl := ⟨1, 2, 3⟩

/-- A sample codec: a frame is the two bytes `[CMD, N]`. -/
def sampleMarshal (p : Protocol) : Bytes := [p.CMD, p.N]

/-- The decoder of the sample codec; anything but two bytes is an error. -/
def sampleUnmarshal : Bytes → Option Protocol
  | [c, n] => some ⟨c, n⟩
  | _ => none

/-! ## Helper lemmas: readers -/

theorem after_after {Ev : Type} (a b : List Ev) (r : ReaderRun Ev) :
    (r.after b).after a = r.after (a ++ b) := by
  simp [ReaderRun.after]

theorem after_nil {Ev : Type} (r : ReaderRun Ev) : r.after [] = r := by
  cases r; simp [ReaderRun.after]

theorem remoteControlReader_err (ctl : Ctl) (um : Bytes → Option Protocol)
    (rest : List ReadResult) :
    remoteControlReader ctl um (.err :: rest)
      = (remoteControlReader ctl um rest).after [.read .err] := by
  simp [remoteControlReader]

theorem relayControlReader_err (ctl : Ctl) (um : Bytes → Option Protocol)
    (rest : List ReadResult) :
    relayControlReader ctl um (.err :: rest)
      = (relayControlReader ctl um rest).after [.read .err] := by
  simp [relayControlReader]

theorem remoteControlReader_errs (ctl : Ctl) (um : Bytes → Option Protocol) (n : Nat) :
    remoteControlReader ctl um (List.replicate n .err)
      = ⟨List.replicate n (.read .err), false⟩ := by
  induction n with
  | zero => simp [remoteControlReader]
  | succ n ih =>
      simp [List.replicate_succ, remoteControlReader, ih, ReaderRun.after]

theorem relayControlReader_errs (ctl : Ctl) (um : Bytes → Option Protocol) (n : Nat) :
    relayControlReader ctl um (List.replicate n .err)
      = ⟨List.replicate n (.read .err), false⟩ := by
  induction n with
  | zero => simp [relayControlReader]
  | succ n ih =>
      simp [List.replicate_succ, relayControlReader, ih, ReaderRun.after]

theorem remoteControlReader_undecoded (ctl : Ctl) (um : Bytes → Option Protocol)
    (pb : Bytes) (rest : List ReadResult) (h : um pb = none) :
    remoteControlReader ctl um (.ok pb :: rest)
      = (remoteControlReader ctl um rest).after [.read (.ok pb)] := by
  simp [remoteControlReader, h]

theorem remoteControlReader_connect (ctl : Ctl) (um : Bytes → Option Protocol)
    (pb : Bytes) (p : Protocol) (rest : List ReadResult) (h : um pb = some p)
    (hc : p.CMD = ctl.CTL_CONNECT_ME) :
    remoteControlReader ctl um (.ok pb :: rest)
      = (remoteControlReader ctl um rest).after [.read (.ok pb), .enqueue p.N] := by
  simp [remoteControlReader, h, hc]

theorem remoteControlReader_cleanup (ctl : Ctl) (um : Bytes → Option Protocol)
    (pb : Bytes) (p : Protocol) (rest : List ReadResult) (h : um pb = some p)
    (hn : p.CMD ≠ ctl.CTL_CONNECT_ME) (hc : p.CMD = ctl.CTL_CLEANUP) :
    remoteControlReader ctl um (.ok pb :: rest)
      = ⟨[.read (.ok pb), .signal, .close], true⟩ := by
  simp only [remoteControlReader, h, if_neg hn, if_pos hc]

theorem remoteControlReader_other (ctl : Ctl) (um : Bytes → Option Protocol)
    (pb : Bytes) (p : Protocol) (rest : List ReadResult) (h : um pb = some p)
    (hn : p.CMD ≠ ctl.CTL_CONNECT_ME) (hc : p.CMD ≠ ctl.CTL_CLEANUP) :
    remoteControlReader ctl um (.ok pb :: rest)
      = (remoteControlReader ctl um rest).after [.read (.ok pb)] := by
  simp only [remoteControlReader, h, if_neg hn, if_neg hc]

/-- While the reader of `ProxyRemote` has not stopped, it goes on with the
frames that follow. -/
theorem remoteControlReader_append (ctl : Ctl) (um : Bytes → Option Protocol)
    (pre rest : List ReadResult)
    (h : (remoteControlReader ctl um pre).stopped = false) :
    remoteControlReader ctl um (pre ++ rest)
      = (remoteControlReader ctl um rest).after (remoteControlReader ctl um pre).trace := by
  induction pre with
  | nil => simp [remoteControlReader, after_nil]
  | cons r pre ih =>
      rw [List.cons_append]
      cases r with
      | err =>
          rw [remoteControlReader_err] at h ⊢
          rw [remoteControlReader_err, ih h, after_after]; rfl
      | ok pb =>
          cases hu : um pb with
          | none =>
              rw [remoteControlReader_undecoded _ _ _ _ hu] at h ⊢
              rw [remoteControlReader_undecoded _ _ _ _ hu, ih h, after_after]; rfl
          | some p =>
              by_cases h1 : p.CMD = ctl.CTL_CONNECT_ME
              · rw [remoteControlReader_connect _ _ _ _ _ hu h1] at h ⊢
                rw [remoteControlReader_connect _ _ _ _ _ hu h1, ih h, after_after]; rfl
              · by_cases h2 : p.CMD = ctl.CTL_CLEANUP
                · rw [remoteControlReader_cleanup _ _ _ _ _ hu h1 h2] at h
                  simp at h
                · rw [remoteControlReader_other _ _ _ _ _ hu h1 h2] at h ⊢
                  rw [remoteControlReader_other _ _ _ _ _ hu h1 h2, ih h, after_after]; rfl

/-- A reader of `ProxyRemote` that has not stopped has sent no stop signal and
has not closed the control connection. -/
theorem remoteControlReader_running (ctl : Ctl) (um : Bytes → Option Protocol)
    (pre : List ReadResult)
    (h : (remoteControlReader ctl um pre).stopped = false) :
    (remoteControlReader ctl um pre).trace.count .signal = 0 ∧
    (remoteControlReader ctl um pre).trace.count .close = 0 := by
  induction pre with
  | nil => simp [remoteControlReader]
  | cons r pre ih =>
      cases r with
      | err =>
          rw [remoteControlReader_err] at h ⊢
          have := ih h
          simp [ReaderRun.after, List.count_cons, this]
      | ok pb =>
          cases hu : um pb with
          | none =>
              rw [remoteControlReader_undecoded _ _ _ _ hu] at h ⊢
              have := ih h
              simp [ReaderRun.after, List.count_cons, this]
          | some p =>
              by_cases h1 : p.CMD = ctl.CTL_CONNECT_ME
              · rw [remoteControlReader_connect _ _ _ _ _ hu h1] at h ⊢
                have := ih h
                simp [ReaderRun.after, List.count_cons, this]
              · by_cases h2 : p.CMD = ctl.CTL_CLEANUP
                · rw [remoteControlReader_cleanup _ _ _ _ _ hu h1 h2] at h
                  simp at h
                · rw [remoteControlReader_other _ _ _ _ _ hu h1 h2] at h ⊢
                  have := ih h
                  simp [ReaderRun.after, List.count_cons, this]

/-- A sequence of frames that all decode to `CONNECT_ME` makes the reader send
their counts, in order, and leaves it running. -/
theorem remoteControlReader_connects (ctl : Ctl) (um : Bytes → Option Protocol)
    (frames : List Bytes) (Ns : List Nat)
    (hdec : frames.map um = Ns.map (fun N => some ⟨ctl.CTL_CONNECT_ME, N⟩)) :
    enqueuedCounts (remoteControlReader ctl um (frames.map .ok)).trace = Ns ∧
    (remoteControlReader ctl um (frames.map .ok)).stopped = false := by
  induction frames generalizing Ns with
  | nil =>
      cases Ns with
      | nil => simp [remoteControlReader, enqueuedCounts]
      | cons N Ns => simp at hdec
  | cons pb frames ih =>
      cases Ns with
      | nil => simp at hdec
      | cons N Ns =>
          simp only [List.map_cons, List.cons.injEq] at hdec
          obtain ⟨h1, h2⟩ := hdec
          have := ih Ns h2
          simp [remoteControlReader, h1, ReaderRun.after, enqueuedCounts, this]

/-! ## Helper lemmas: dispatch loop -/

/-- The inner loop starts task `next`, `next + 1`, ..., `next + n - 1`. -/
theorem dialLoop_eq {Ctx : Type} (enc : Bool) (o : Nat → DialOutcome Ctx) (n next : Nat) :
    dialLoop enc o n next
      = (List.range n).map (fun i => remoteDialTask enc (o (next + i))) := by
  induction n generalizing next with
  | zero => simp [dialLoop]
  | succ n ih =>
      rw [dialLoop, ih, List.range_succ_eq_map]
      simp [Function.comp_def, Nat.add_assoc, Nat.add_comm 1]

theorem dialLoop_length {Ctx : Type} (enc : Bool) (o : Nat → DialOutcome Ctx) (n next : Nat) :
    (dialLoop enc o n next).length = n := by
  simp [dialLoop_eq]

/-- The dispatch loop starts exactly the tasks asked for, numbered in order. -/
theorem dispatchLoop_tasks {Ctx : Type} (enc : Bool) (o : Nat → DialOutcome Ctx)
    (sels : List Sel) (next : Nat) :
    (dispatchLoop enc o sels next).tasks
      = (List.range (demand sels)).map (fun i => remoteDialTask enc (o (next + i))) := by
  induction sels generalizing next with
  | nil => simp [dispatchLoop, demand]
  | cons sel rest ih =>
      cases sel with
      | endSignal => simp [dispatchLoop, demand]
      | connectRequest n =>
          simp only [dispatchLoop, demand, ih, dialLoop_eq, List.range_add, List.map_append,
            List.map_map]
          simp [Function.comp_def, Nat.add_assoc]

/-- Whether the dispatch loop returns depends on the `select` results only. -/
theorem dispatchLoop_returned {Ctx : Type} (enc : Bool) (o o2 : Nat → DialOutcome Ctx)
    (sels : List Sel) (next next2 : Nat) :
    (dispatchLoop enc o sels next).returned = (dispatchLoop enc o2 sels next2).returned := by
  induction sels generalizing next next2 with
  | nil => simp [dispatchLoop]
  | cons sel rest ih =>
      cases sel with
      | endSignal => simp [dispatchLoop]
      | connectRequest n => simp only [dispatchLoop]; exact ih _ _

theorem demand_requests (Ns : List Nat) (post : List Sel) :
    demand (Ns.map .connectRequest ++ post) = Ns.sum + demand post := by
  induction Ns with
  | nil => simp
  | cons N Ns ih => simp [demand, ih, Nat.add_assoc]

theorem dispatchLoop_requests_returned {Ctx : Type} (enc : Bool) (o : Nat → DialOutcome Ctx)
    (Ns : List Nat) (post : List Sel) (next : Nat) :
    (dispatchLoop enc o (Ns.map .connectRequest ++ post) next).returned
      = (dispatchLoop enc o post (next + Ns.sum)).returned := by
  induction Ns generalizing next with
  | nil => simp
  | cons N Ns ih => simp [dispatchLoop, ih, Nat.add_assoc]

/-- The dispatch loop has returned exactly when a stop signal is among what its
`select`s received. -/
theorem dispatchLoop_returned_eq {Ctx : Type} (enc : Bool) (o : Nat → DialOutcome Ctx)
    (sels : List Sel) (next : Nat) :
    (dispatchLoop enc o sels next).returned = decide (Sel.endSignal ∈ sels) := by
  induction sels generalizing next with
  | nil => simp [dispatchLoop]
  | cons sel rest ih =>
      cases sel with
      | endSignal => simp [dispatchLoop]
      | connectRequest n => simp [dispatchLoop, ih]

/-- Every dial task makes exactly one dial attempt. -/
theorem remoteDialTask_one_dial {Ctx : Type} (enc : Bool) (d : DialOutcome Ctx) :
    (remoteDialTask enc d).countP TaskEv.isDial = 1 := by
  rcases d with ⟨_ | c, _ | x⟩ <;> simp [remoteDialTask, TaskEv.isDial, List.countP_cons]

/-- A dial task hands its connection to the SOCKS5 handler exactly when both its
dial and its wrap succeeded. -/
theorem remoteDialTask_handled {Ctx : Type} (enc : Bool) (d : DialOutcome Ctx) :
    (remoteDialTask enc d).any TaskEv.isHandle = (d.dialRes.isSome && d.wrapRes.isSome) := by
  rcases d with ⟨_ | c, _ | x⟩ <;> simp [remoteDialTask, TaskEv.isHandle]

/-! ## ProxyRemote: claims -/

/-- C2: demand is met exactly in ProxyRemote.  Frames that decode to
CONNECT_ME with counts `Ns` make the control reader send exactly `Ns` on
`connectRequest`; the inner loop is total and starts exactly `n` tasks for a
count `n`; the dispatch loop that dequeues `Ns` starts `Ns.sum` dial tasks, each
making one dial attempt, whether the stop signal has come after them or not. -/
theorem C2_demand_met_exactly {Ctx : Type} (ctl : Ctl) (um : Bytes → Option Protocol)
    (enc : Bool) (o : Nat → DialOutcome Ctx) (frames : List Bytes) (Ns : List Nat)
    (post : List Sel) (next : Nat)
    (hdec : frames.map um = Ns.map (fun N => some ⟨ctl.CTL_CONNECT_ME, N⟩)) :
    enqueuedCounts (remoteControlReader ctl um (frames.map .ok)).trace = Ns ∧
    (∀ n k, (dialLoop enc o n k).length = n) ∧
    (dialLoop enc o 0 next = []) ∧
    (dispatchLoop enc o (Ns.map .connectRequest) next).tasks.length = Ns.sum ∧
    (dispatchLoop enc o (Ns.map .connectRequest ++ .endSignal :: post) next).tasks.length
      = Ns.sum ∧
    ((dispatchLoop enc o (Ns.map .connectRequest ++ .endSignal :: post) next).tasks.map
      (List.countP TaskEv.isDial)).sum = Ns.sum := by
  refine ⟨(remoteControlReader_connects ctl um frames Ns hdec).1,
    fun n k => dialLoop_length enc o n k, rfl, ?_, ?_, ?_⟩
  · have := demand_requests Ns []
    simp only [List.append_nil] at this
    simp [dispatchLoop_tasks, this, demand]
  · simp [dispatchLoop_tasks, demand_requests, demand]
  · simp [dispatchLoop_tasks, demand_requests, demand, Function.comp_def,
      remoteDialTask_one_dial]

/-- C2 at three frames CONNECT_ME(2), CONNECT_ME(0), CONNECT_ME(3) of the sample
codec. -/
theorem C2_demand_met_exactly_witness :
    [[1, 2], [1, 0], [1, 3]].map sampleUnmarshal
        = [2, 0, 3].map (fun N => some ⟨sampleCtl.CTL_CONNECT_ME, N⟩) ∧
    (dispatchLoop true (fun _ => (⟨none, none⟩ : DialOutcome Unit))
      ([2, 0, 3].map .connectRequest ++ .endSignal :: [.connectRequest 4]) 0).tasks.length
      = [2, 0, 3].sum :=
  ⟨by decide,
    (C2_demand_met_exactly sampleCtl sampleUnmarshal true
      (fun _ => (⟨none, none⟩ : DialOutcome Unit)) [[1, 2], [1, 0], [1, 3]] [2, 0, 3]
      [.connectRequest 4] 0 (by decide)).2.2.2.2.1⟩

/-- C3: dial failure isolation in ProxyRemote.  Let two assignments of dial and
wrap outcomes agree on every task but number `k`.  Then the dispatch loop starts
the same number of tasks and is in the same state (running or returned) under
both; a request for `n` starts `n` tasks and the loop goes on with what follows;
task number `next + i` is the dial task run on its own outcome, with exactly one
dial attempt; a task reaches the SOCKS5 handler exactly when its own dial and
wrap succeeded; every task other than `k` is the same under both
assignments; and whatever the outcomes, the loop is still running after any
sequence of requests: it has returned exactly when a stop signal was
received. -/
theorem C3_dial_failure_isolation {Ctx : Type} (enc : Bool) (o o2 : Nat → DialOutcome Ctx)
    (k : Nat) (sels : List Sel) (next : Nat)
    (hagree : ∀ j, j ≠ k → o j = o2 j) :
    (dispatchLoop enc o sels next).tasks.length
      = (dispatchLoop enc o2 sels next).tasks.length ∧
    (dispatchLoop enc o sels next).returned = (dispatchLoop enc o2 sels next).returned ∧
    (∀ n rest,
      (dispatchLoop enc o (.connectRequest n :: rest) next).tasks
        = dialLoop enc o n next ++ (dispatchLoop enc o rest (next + n)).tasks ∧
      (dialLoop enc o n next).length = n ∧
      (dispatchLoop enc o (.connectRequest n :: rest) next).returned
        = (dispatchLoop enc o rest (next + n)).returned) ∧
    (∀ i, i < (dispatchLoop enc o sels next).tasks.length →
      (dispatchLoop enc o sels next).tasks[i]?
        = some (remoteDialTask enc (o (next + i))) ∧
      (remoteDialTask enc (o (next + i))).countP TaskEv.isDial = 1) ∧
    (∀ d : DialOutcome Ctx,
      (remoteDialTask enc d).any TaskEv.isHandle = (d.dialRes.isSome && d.wrapRes.isSome)) ∧
    (∀ i, next + i ≠ k →
      (dispatchLoop enc o sels next).tasks[i]?
        = (dispatchLoop enc o2 sels next).tasks[i]?) ∧
    (∀ (Ns : List Nat) (m : Nat),
      (dispatchLoop enc o (Ns.map .connectRequest) m).returned = false) ∧
    (dispatchLoop enc o sels next).returned = decide (Sel.endSignal ∈ sels) ∧
    (dispatchLoop enc o2 sels next).returned = decide (Sel.endSignal ∈ sels) := by
  refine ⟨by simp [dispatchLoop_tasks], dispatchLoop_returned enc o o2 sels next next,
    fun n rest => ⟨rfl, dialLoop_length enc o n next, rfl⟩, ?_,
    remoteDialTask_handled enc, ?_, ?_, dispatchLoop_returned_eq enc o sels next,
    dispatchLoop_returned_eq enc o2 sels next⟩
  · intro i hi
    simp only [dispatchLoop_tasks, List.length_map, List.length_range] at hi
    refine ⟨?_, remoteDialTask_one_dial enc _⟩
    simp [dispatchLoop_tasks, List.getElem?_map, List.getElem?_range hi]
  · intro i hi
    simp only [dispatchLoop_tasks, List.getElem?_map]
    by_cases hlt : i < demand sels
    · simp [List.getElem?_range hlt, hagree _ hi]
    · simp [List.getElem?_eq_none (l := List.range (demand sels)) (by simpa using hlt)]
  · intro Ns m
    rw [dispatchLoop_returned_eq]
    simp

/-- C3 at a CONNECT_ME(3) batch whose second dial fails in one assignment and
succeeds in the other: the third task is the same. -/
theorem C3_dial_failure_isolation_witness :
    (∀ j, j ≠ 1 →
      (fun i => if i = 1 then (⟨none, none⟩ : DialOutcome Unit) else ⟨some (10 + i), some ()⟩) j
        = (fun i => (⟨some (10 + i), some ()⟩ : DialOutcome Unit)) j) ∧
    (dispatchLoop true
        (fun i => if i = 1 then (⟨none, none⟩ : DialOutcome Unit) else ⟨some (10 + i), some ()⟩)
        [.connectRequest 3] 0).tasks[2]?
      = (dispatchLoop true (fun i => (⟨some (10 + i), some ()⟩ : DialOutcome Unit))
        [.connectRequest 3] 0).tasks[2]? :=
  ⟨fun j hj => by simp [hj],
    (C3_dial_failure_isolation true
      (fun i => if i = 1 then (⟨none, none⟩ : DialOutcome Unit) else ⟨some (10 + i), some ()⟩)
      (fun i => (⟨some (10 + i), some ()⟩ : DialOutcome Unit)) 1 [.connectRequest 3] 0
      (fun j hj => by simp [hj])).2.2.2.2.2.1 2 (by decide)⟩

/-- C4: decode errors are transient in the ProxyRemote control reader.  A frame
on which `unmarshal` fails adds only its own read to the run: nothing is sent on
`connectRequest` or `endSignal`, the connection is not closed, and the reader
goes on with the frames that follow.  A corrupted frame followed by a valid
CONNECT_ME(N) frame gives one skipped frame and one send of `N`. -/
theorem C4_decode_error_transient (ctl : Ctl) (um : Bytes → Option Protocol) (bad : Bytes)
    (hbad : um bad = none) :
    (∀ rest, remoteControlReader ctl um (.ok bad :: rest)
      = (remoteControlReader ctl um rest).after [.read (.ok bad)]) ∧
    (∀ pre rest, (remoteControlReader ctl um pre).stopped = false →
      remoteControlReader ctl um (pre ++ .ok bad :: rest)
        = (remoteControlReader ctl um rest).after
            ((remoteControlReader ctl um pre).trace ++ [.read (.ok bad)])) ∧
    (∀ good N, um good = some ⟨ctl.CTL_CONNECT_ME, N⟩ →
      remoteControlReader ctl um [.ok bad, .ok good]
        = ⟨[.read (.ok bad), .read (.ok good), .enqueue N], false⟩) := by
  refine ⟨fun rest => remoteControlReader_undecoded ctl um bad rest hbad, ?_, ?_⟩
  · intro pre rest hpre
    rw [remoteControlReader_append ctl um pre _ hpre,
      remoteControlReader_undecoded ctl um bad rest hbad, after_after]
  · intro good N hgood
    rw [remoteControlReader_undecoded ctl um bad _ hbad,
      remoteControlReader_connect ctl um good _ [] hgood rfl]
    simp [remoteControlReader, ReaderRun.after]

/-- C4 at a three-byte frame, which the sample decoder rejects, followed by
CONNECT_ME(5). -/
theorem C4_decode_error_transient_witness :
    sampleUnmarshal [9, 9, 9] = none ∧
    remoteControlReader sampleCtl sampleUnmarshal [.ok [9, 9, 9], .ok [1, 5]]
      = ⟨[.read (.ok [9, 9, 9]), .read (.ok [1, 5]), .enqueue 5], false⟩ :=
  ⟨rfl, (C4_decode_error_transient sampleCtl sampleUnmarshal [9, 9, 9] rfl).2.2 [1, 5] 5 rfl⟩

/-- C5 as stated fails: after `readUntilEnd` has returned an error, the control
readers of ProxyRemote and of ProxyRemoteL2L have not returned and call
`readUntilEnd` again. -/
theorem C5_read_error_counterexample :
    remoteControlReader sampleCtl sampleUnmarshal [.err, .err]
      = ⟨[.read .err, .read .err], false⟩ ∧
    relayControlReader sampleCtl sampleUnmarshal [.err, .err]
      = ⟨[.read .err, .read .err], false⟩ := by
  decide

/-- C5, amended: a read error on the control connection is skipped.  In
ProxyRemote and in ProxyRemoteL2L, when `readUntilEnd` returns an error the
control reader does nothing else for that read and goes on to call
`readUntilEnd` again; after any number of failed reads in a row it is still in
its loop. -/
theorem C5_read_error_skipped (ctl : Ctl) (um : Bytes → Option Protocol) :
    (∀ rest, remoteControlReader ctl um (.err :: rest)
      = (remoteControlReader ctl um rest).after [.read .err]) ∧
    (∀ rest, relayControlReader ctl um (.err :: rest)
      = (relayControlReader ctl um rest).after [.read .err]) ∧
    (∀ n, remoteControlReader ctl um (List.replicate n .err)
      = ⟨List.replicate n (.read .err), false⟩) ∧
    (∀ n, relayControlReader ctl um (List.replicate n .err)
      = ⟨List.replicate n (.read .err), false⟩) :=
  ⟨remoteControlReader_err ctl um, relayControlReader_err ctl um,
    remoteControlReader_errs ctl um, relayControlReader_errs ctl um⟩

/-- C6: cleanup on the client.  When the ProxyRemote control reader, still
running after the frames `pre`, decodes a CLEANUP message, its run ends with
that read, one send on `endSignal` and the close of the control connection; it
has stopped; the whole run holds exactly one stop signal and one close; and the
frames after CLEANUP change nothing.  Once the dispatch loop receives the stop
signal, `ProxyRemote` has returned and the tasks started are those started
before it, whatever is still to be received.  `CTL_CONNECT_ME` and
`CTL_CLEANUP` are distinct, being two cases of one `switch`. -/
theorem C6_cleanup_on_client {Ctx : Type} (ctl : Ctl) (um : Bytes → Option Protocol)
    (pb : Bytes) (p : Protocol) (pre : List ReadResult)
    (hne : ctl.CTL_CONNECT_ME ≠ ctl.CTL_CLEANUP) (hdec : um pb = some p)
    (hcmd : p.CMD = ctl.CTL_CLEANUP)
    (hpre : (remoteControlReader ctl um pre).stopped = false) :
    (∀ rest, remoteControlReader ctl um (pre ++ .ok pb :: rest)
      = ⟨(remoteControlReader ctl um pre).trace ++ [.read (.ok pb), .signal, .close], true⟩) ∧
    (∀ rest, (remoteControlReader ctl um (pre ++ .ok pb :: rest)).trace.count .signal = 1 ∧
      (remoteControlReader ctl um (pre ++ .ok pb :: rest)).trace.count .close = 1 ∧
      readCount (remoteControlReader ctl um (pre ++ .ok pb :: rest)).trace
        = readCount (remoteControlReader ctl um pre).trace + 1) ∧
    (∀ (enc : Bool) (o : Nat → DialOutcome Ctx) (Ns : List Nat) (post : List Sel) (next : Nat),
      dispatchLoop enc o (Ns.map .connectRequest ++ .endSignal :: post) next
        = ⟨(dispatchLoop enc o (Ns.map .connectRequest) next).tasks, true⟩) := by
  have hn : p.CMD ≠ ctl.CTL_CONNECT_ME := by rw [hcmd]; exact fun h => hne h.symm
  have hrun : ∀ rest, remoteControlReader ctl um (pre ++ .ok pb :: rest)
      = ⟨(remoteControlReader ctl um pre).trace ++ [.read (.ok pb), .signal, .close], true⟩ := by
    intro rest
    rw [remoteControlReader_append ctl um pre _ hpre,
      remoteControlReader_cleanup ctl um pb p rest hdec hn hcmd]
    rfl
  have hcount := remoteControlReader_running ctl um pre hpre
  have hreads : ∀ (a b : List RemoteEv), readCount (a ++ b) = readCount a + readCount b := by
    intro a b
    induction a with
    | nil => simp [readCount]
    | cons e a ih =>
        cases e <;> simp [readCount, ih]
        omega
  refine ⟨hrun, ?_, ?_⟩
  · intro rest
    rw [hrun rest]
    simp [List.count_append, hcount.1, hcount.2, List.count_cons, hreads, readCount]
  · intro enc o Ns post next
    have h1 := dispatchLoop_tasks enc o (Ns.map .connectRequest ++ .endSignal :: post) next
    have h2 := dispatchLoop_tasks enc o (Ns.map .connectRequest) next
    have h3 := dispatchLoop_requests_returned enc o Ns (.endSignal :: post) next
    have h4 := demand_requests Ns []
    simp only [List.append_nil] at h4
    rw [demand_requests] at h1
    rw [h4] at h2
    simp only [demand, Nat.add_zero] at h1 h2
    cases hd : dispatchLoop enc o (Ns.map .connectRequest ++ .endSignal :: post) next with
    | mk tasks returned =>
        rw [hd] at h1 h3
        simp only [dispatchLoop] at h3
        simp only at h1
        rw [h2, h1, h3]

/-- C6 at a CONNECT_ME(2) frame followed by CLEANUP and one more frame, with the
sample codec. -/
theorem C6_cleanup_on_client_witness :
    sampleCtl.CTL_CONNECT_ME ≠ sampleCtl.CTL_CLEANUP ∧
    sampleUnmarshal [2, 0] = some ⟨2, 0⟩ ∧
    (remoteControlReader sampleCtl sampleUnmarshal [.ok [1, 2]]).stopped = false ∧
    remoteControlReader sampleCtl sampleUnmarshal ([.ok [1, 2]] ++ .ok [2, 0] :: [.ok [1, 7]])
      = ⟨(remoteControlReader sampleCtl sampleUnmarshal [.ok [1, 2]]).trace
          ++ [.read (.ok [2, 0]), .signal, .close], true⟩ :=
  ⟨by decide, rfl, by decide,
    (@C6_cleanup_on_client Unit sampleCtl sampleUnmarshal [2, 0] ⟨2, 0⟩ [.ok [1, 2]]
      (by decide) rfl rfl (by decide)).1 [.ok [1, 7]]⟩

/-! ## ProxyRemoteL2L: claims on the control reader and the forwarding task -/

/-- C8: the relay control reader.  A decoded CLEANUP message makes the reader
log and call `os.Exit(0)`, whatever follows.  A decoded message with any other
command adds only its own read to the run: no write to the control connection,
no send on or receive from `localConnBuffer`; the reader goes on with the
frames that follow. -/
theorem C8_relay_control_reader (ctl : Ctl) (um : Bytes → Option Protocol) (pb : Bytes)
    (p : Protocol) (hdec : um pb = some p) :
    (p.CMD = ctl.CTL_CLEANUP → ∀ rest,
      relayControlReader ctl um (.ok pb :: rest) = ⟨[.read (.ok pb), .log, .exit], true⟩) ∧
    (p.CMD ≠ ctl.CTL_CLEANUP → ∀ rest,
      relayControlReader ctl um (.ok pb :: rest)
        = (relayControlReader ctl um rest).after [.read (.ok pb)]) := by
  constructor
  · intro hc rest
    simp [relayControlReader, hdec, hc]
  · intro hc rest
    simp only [relayControlReader, hdec, if_neg hc, ite_self]

/-- C8 at a HEARTBEAT frame, a CONNECT_ME frame and a frame with command byte 77,
followed by CLEANUP, with the sample codec. -/
theorem C8_relay_control_reader_witness :
    sampleUnmarshal [3, 0] = some ⟨3, 0⟩ ∧
    (⟨3, 0⟩ : Protocol).CMD ≠ sampleCtl.CTL_CLEANUP ∧
    relayControlReader sampleCtl sampleUnmarshal
        [.ok [3, 0], .ok [1, 4], .ok [77, 0], .ok [2, 0], .ok [3, 0]]
      = ⟨[.read (.ok [3, 0]), .read (.ok [1, 4]), .read (.ok [77, 0]), .read (.ok [2, 0]),
          .log, .exit], true⟩ :=
  ⟨rfl, by decide, by
    rw [(C8_relay_control_reader sampleCtl sampleUnmarshal [3, 0] ⟨3, 0⟩ rfl).2 (by decide)]
    decide⟩

/-- C9: every forwarding task of ProxyRemoteL2L closes both of its connections.
The task returns when a wrap fails or `PipeForward` returns, and then its trace
ends with the close of `localConn` and the close of `remoteConn`.
`PipeForward` is called exactly when both wraps succeeded, on the two contexts
they returned.  The task first wraps `remoteConn` with `menc`; when that wrap
succeeded it then wraps `localConn` with `lenc`; these are its only wraps. -/
theorem C9_forward_task_closes_both {Ctx : Type} (menc lenc : Bool) (remoteConn localConn : Conn)
    (remoteWrap localWrap : Option Ctx) (pipeReturns : Bool) :
    (forwardTask menc lenc remoteConn localConn remoteWrap localWrap pipeReturns).returned
      = (remoteWrap.isNone || localWrap.isNone || pipeReturns) ∧
    ((forwardTask menc lenc remoteConn localConn remoteWrap localWrap pipeReturns).returned
        = true →
      [.close localConn, .close remoteConn] <:+
        (forwardTask menc lenc remoteConn localConn remoteWrap localWrap pipeReturns).trace) ∧
    (forwardTask menc lenc remoteConn localConn remoteWrap localWrap pipeReturns).trace.filter
        TaskEv.isPipe
      = (match remoteWrap, localWrap with
         | some r, some l => [.pipe r l]
         | _, _ => []) ∧
    (∀ c e, TaskEv.wrap c e ∈
        (forwardTask menc lenc remoteConn localConn remoteWrap localWrap pipeReturns).trace →
      (c = remoteConn ∧ e = menc) ∨ (c = localConn ∧ e = lenc ∧ remoteWrap.isSome = true)) ∧
    (forwardTask menc lenc remoteConn localConn remoteWrap localWrap pipeReturns).trace.head?
      = some (.wrap remoteConn menc) ∧
    (remoteWrap.isSome = true →
      TaskEv.wrap localConn lenc ∈
        (forwardTask menc lenc remoteConn localConn remoteWrap localWrap pipeReturns).trace) ∧
    (forwardTask menc lenc remoteConn localConn remoteWrap localWrap pipeReturns).trace.filter
        TaskEv.isWrap
      = (match remoteWrap with
         | none => [.wrap remoteConn menc]
         | some _ => [.wrap remoteConn menc, .wrap localConn lenc]) := by
  rcases remoteWrap with _ | r <;> rcases localWrap with _ | l <;> rcases pipeReturns with _ | _
    <;> simp [forwardTask, TaskEv.isPipe, TaskEv.isWrap, List.filter_cons]
    <;> first | exact ⟨[_], rfl⟩ | exact ⟨[_, _], rfl⟩ | exact ⟨[_, _, _], rfl⟩

/-- C9 at a task whose two wraps succeed and whose `PipeForward` returns. -/
theorem C9_forward_task_closes_both_witness :
    (forwardTask true false 20 10 (some 100) (some 200) true).returned = true ∧
    [TaskEv.close 10, TaskEv.close 20] <:+
      (forwardTask true false 20 10 (some 100) (some 200) true).trace :=
  ⟨rfl, (C9_forward_task_closes_both true false 20 10 (some 100) (some 200) true).2.1 rfl⟩

/-- C10 fails on the code: a dial task of ProxyRemote whose dial succeeded and
whose wrap failed returns after the two calls, without closing the dialed
connection and without handing it to the SOCKS5 handler; the connection task of
ProxyLocal closes its connection on the same path. -/
theorem C10_dial_task_leaks_on_wrap_failure {Ctx : Type} (enc : Bool) (conn : Conn)
    (handlerReturns : Bool) :
    remoteDialTask enc (⟨some conn, none⟩ : DialOutcome Ctx) = [.dial, .wrap conn enc] ∧
    (remoteDialTask enc (⟨some conn, none⟩ : DialOutcome Ctx)).any (TaskEv.isClose conn)
      = false ∧
    (remoteDialTask enc (⟨some conn, none⟩ : DialOutcome Ctx)).any TaskEv.isHandle = false ∧
    localConnTask enc conn (none : Option Ctx) handlerReturns
      = ⟨[.wrap conn enc, .close conn], true⟩ := by
  simp [remoteDialTask, localConnTask, TaskEv.isClose, TaskEv.isHandle]

/-! ## ProxyRemoteL2L: the invariant of the acceptor and the main loop -/

theorem relayInv_init (msg : Bytes) : RelayInv msg relayInit := by
  constructor <;> simp [relayInit, pendingSend, pendingRecv, pendingWrite]

/-- Every step keeps the invariant. -/
theorem relayInv_step (cap : Nat) (marshal : Protocol → Bytes) (ctl : Ctl) (st : RelayStep)
    (s t : RelayState) (hs : RelayInv (marshal ⟨ctl.CTL_CONNECT_ME, 1⟩) s)
    (hstep : relayStep cap marshal ctl st s = some t) :
    RelayInv (marshal ⟨ctl.CTL_CONNECT_ME, 1⟩) t := by
  obtain ⟨h1, h2, h3, h4, h5⟩ := hs
  rcases s with ⟨accPc, mainPc, buffer, la, ra, enq, wr, fw⟩
  simp only at h1 h2 h3 h4 h5
  cases st with
  | localAccept res =>
      cases res with
      | none =>
          cases accPc <;> simp [relayStep] at hstep
          subst hstep
          exact ⟨h1, h2, h3, h4, h5⟩
      | some c =>
          cases accPc <;> simp [relayStep] at hstep
          subst hstep
          simp only [pendingSend, List.append_nil, pendingWrite] at h1 h5
          exact ⟨by simp [pendingSend, h1], h2, h3, h4, by simpa [pendingWrite] using h5⟩
  | enqueue =>
      cases accPc <;> simp [relayStep] at hstep
      obtain ⟨_, hstep⟩ := hstep
      subst hstep
      simp only [pendingSend, pendingWrite] at h1 h5
      refine ⟨by simpa [pendingSend] using h1, ?_, h3, h4, ?_⟩
      · simp [← h2, List.append_assoc]
      · simp only [pendingWrite, List.length_append, List.length_singleton]; omega
  | handoff =>
      cases accPc <;> cases mainPc <;> simp [relayStep] at hstep
      obtain ⟨hb, hstep⟩ := hstep
      subst hstep
      subst hb
      simp only [pendingSend, pendingWrite, pendingRecv, List.append_nil] at h1 h2 h3 h5
      refine ⟨by simpa [pendingSend] using h1, ?_, ?_, h4, ?_⟩
      · simp [h2]
      · simp [pendingRecv, h3]
      · simp only [pendingWrite, List.length_append, List.length_singleton]; omega
  | write =>
      cases accPc <;> simp [relayStep] at hstep
      subst hstep
      simp only [pendingSend, pendingWrite, List.append_nil] at h1 h5
      refine ⟨by simpa [pendingSend] using h1, h2, h3, ?_, ?_⟩
      · rw [List.length_append, List.length_singleton, List.replicate_add, ← h4]
        rfl
      · simp only [pendingWrite, List.length_append, List.length_singleton]; omega
  | remoteAccept res =>
      cases res with
      | none =>
          cases mainPc <;> simp [relayStep] at hstep
          subst hstep
          exact ⟨h1, h2, h3, h4, h5⟩
      | some r =>
          cases mainPc <;> simp [relayStep] at hstep
          subst hstep
          simp only [pendingRecv, List.append_nil] at h3
          exact ⟨h1, h2, by simp [pendingRecv, h3], h4, h5⟩
  | dequeue =>
      cases mainPc <;> simp [relayStep] at hstep
      cases buffer with
      | nil => simp at hstep
      | cons l rest =>
          simp only [Option.some.injEq] at hstep
          subst hstep
          simp only [pendingRecv] at h3
          refine ⟨h1, ?_, ?_, h4, h5⟩
          · simp [← h2]
          · simp [pendingRecv, ← h3]

/-- Every state reached from the start satisfies the invariant. -/
theorem relayInv_run (cap : Nat) (marshal : Protocol → Bytes) (ctl : Ctl)
    (sts : List RelayStep) (s t : RelayState)
    (hs : RelayInv (marshal ⟨ctl.CTL_CONNECT_ME, 1⟩) s)
    (hrun : relayRun cap marshal ctl sts s = some t) :
    RelayInv (marshal ⟨ctl.CTL_CONNECT_ME, 1⟩) t := by
  induction sts generalizing s with
  | nil =>
      simp only [relayRun, Option.some.injEq] at hrun
      exact hrun ▸ hs
  | cons st sts ih =>
      simp only [relayRun] at hrun
      cases hstep : relayStep cap marshal ctl st s with
      | none => simp [hstep] at hrun
      | some u =>
          rw [hstep] at hrun
          exact ih u (relayInv_step cap marshal ctl st s u hs hstep) hrun

/-- A list of pairs is the zip of its two projections, also when each is
followed by further entries. -/
theorem pairs_eq_zip_take (fw : List (Conn × Conn)) (a b : List Conn) :
    fw = ((fw.map Prod.fst ++ a).zip (fw.map Prod.snd ++ b)).take fw.length := by
  induction fw with
  | nil => simp
  | cons x fw ih =>
      simp only [List.map_cons, List.cons_append, List.zip_cons_cons, List.length_cons,
        List.take_succ_cons]
      rw [← ih]

/-- When one of the two projections has no further entry, the pairs are the
whole zip. -/
theorem pairs_eq_zip (fw : List (Conn × Conn)) (a b : List Conn) (h : a = [] ∨ b = []) :
    fw = (fw.map Prod.fst ++ a).zip (fw.map Prod.snd ++ b) := by
  induction fw with
  | nil => rcases h with h | h <;> simp [h]
  | cons x fw ih =>
      simp only [List.map_cons, List.cons_append, List.zip_cons_cons]
      rw [← ih]

/-- The pair at position `i` of a leading part of a zip is made of the entries
at position `i` of the two lists. -/
theorem pairs_index (fw : List (Conn × Conn)) (R L : List Conn)
    (h : fw = (R.zip L).take fw.length) (i : Nat) (r l : Conn)
    (hi : fw[i]? = some (r, l)) : R[i]? = some r ∧ L[i]? = some l := by
  rw [h] at hi
  have h2 : (R.zip L)[i]? = some (r, l) := by
    rw [List.getElem?_take] at hi
    split at hi
    · exact hi
    · simp at hi
  exact List.getElem?_zip_eq_some.mp h2

/-! ## ProxyRemoteL2L: claims on the acceptor and the main loop -/

/-- C1: FIFO pairing in ProxyRemoteL2L.  In every state the two loops reach,
with `localAccepted = [L1..Lk]` and `remoteAccepted = [R1..Rm]` the successful
accepts in order, the forwarding tasks started are the first pairs of
`(R1, L1), (R2, L2), ...`, in that order, so that the task at position `i`
pairs `Ri` with `Li`, and they are never more than `min k m`; when
neither loop can move without a further accept, they are exactly the pairs
`(Ri, Li)` for `i = 1..min k m`.  A failed accept on either listener leaves the
state as it was. -/
theorem C1_fifo_pairing (cap : Nat) (marshal : Protocol → Bytes) (ctl : Ctl)
    (sts : List RelayStep) (s : RelayState)
    (hrun : relayRun cap marshal ctl sts relayInit = some s) :
    s.forwarded = (s.remoteAccepted.zip s.localAccepted).take s.forwarded.length ∧
    (∀ (i : Nat) (r l : Conn), s.forwarded[i]? = some (r, l) →
      s.remoteAccepted[i]? = some r ∧ s.localAccepted[i]? = some l) ∧
    s.forwarded.length ≤ min s.localAccepted.length s.remoteAccepted.length ∧
    ((∀ st : RelayStep, st.internal = true → relayStep cap marshal ctl st s = none) →
      s.forwarded = s.remoteAccepted.zip s.localAccepted ∧
      s.forwarded.length = min s.localAccepted.length s.remoteAccepted.length) ∧
    (∀ t, relayStep cap marshal ctl (.localAccept none) s = some t → t = s) ∧
    (∀ t, relayStep cap marshal ctl (.remoteAccept none) s = some t → t = s) := by
  obtain ⟨h1, h2, h3, _, _⟩ :=
    relayInv_run cap marshal ctl sts relayInit s (relayInv_init _) hrun
  rcases s with ⟨accPc, mainPc, buffer, la, ra, enq, wr, fw⟩
  simp only at h1 h2 h3 ⊢
  have hla : la = fw.map Prod.snd ++ (buffer ++ pendingSend accPc) := by
    rw [← h1, ← h2, List.append_assoc]
  have hra : ra = fw.map Prod.fst ++ pendingRecv mainPc := h3.symm
  have hfw : fw = (ra.zip la).take fw.length := by
    rw [hla, hra]
    exact pairs_eq_zip_take fw _ _
  refine ⟨hfw, pairs_index fw ra la hfw, ?_, ?_, ?_, ?_⟩
  · rw [hla, hra]
    simp only [List.length_append, List.length_map]
    omega
  · intro hq
    have hquiet : pendingRecv mainPc = [] ∨ buffer ++ pendingSend accPc = [] := by
      cases mainPc with
      | accept => left; rfl
      | recv r =>
          right
          cases buffer with
          | cons l rest =>
              have := hq .dequeue rfl
              simp [relayStep] at this
          | nil =>
              cases accPc with
              | accept => rfl
              | write =>
                  have := hq .write rfl
                  simp [relayStep] at this
              | send c =>
                  have := hq .handoff rfl
                  simp [relayStep] at this
    have hz := pairs_eq_zip fw _ _ hquiet
    rw [hla, hra]
    refine ⟨hz, ?_⟩
    rcases hquiet with h | h <;> simp [h]
  · intro t ht
    cases accPc <;> simp [relayStep] at ht
    exact ht.symm
  · intro t ht
    cases mainPc <;> simp [relayStep] at ht
    exact ht.symm

/-- C1 on a run with a failed accept on the master listener, two end-user
connections 10, 11 and two data connections 20, 21. -/
theorem C1_fifo_pairing_witness :
    relayRun 2 sampleMarshal sampleCtl
        [.localAccept (some 10), .enqueue, .write, .remoteAccept none,
          .remoteAccept (some 20), .dequeue, .localAccept (some 11), .enqueue, .write,
          .remoteAccept (some 21), .dequeue] relayInit
      = some ⟨.accept, .accept, [], [10, 11], [20, 21], [10, 11], [[1, 1], [1, 1]],
          [(20, 10), (21, 11)]⟩ ∧
    [(20, 10), (21, 11)] = ([20, 21].zip [10, 11]).take 2 :=
  ⟨by decide,
    (C1_fifo_pairing 2 sampleMarshal sampleCtl
      [.localAccept (some 10), .enqueue, .write, .remoteAccept none,
        .remoteAccept (some 20), .dequeue, .localAccept (some 11), .enqueue, .write,
        .remoteAccept (some 21), .dequeue]
      ⟨.accept, .accept, [], [10, 11], [20, 21], [10, 11], [[1, 1], [1, 1]],
        [(20, 10), (21, 11)]⟩ (by decide)).1⟩

/-- C7: the end-user acceptor of ProxyRemoteL2L.  In every state the two loops
reach: the messages the acceptor has written are all
`marshal {CMD: CTL_CONNECT_ME, N: 1}`; there are at most as many of them as
connections sent on `localConnBuffer`; the connections sent are the first of
those accepted, in accept order; and when the acceptor is back at `Accept`,
having completed its iterations, every accepted connection has been sent and
one message has been written for each.  An accept error leaves the state as it
was: nothing is sent and nothing is written. -/
theorem C7_acceptor (cap : Nat) (marshal : Protocol → Bytes) (ctl : Ctl)
    (sts : List RelayStep) (s : RelayState)
    (hrun : relayRun cap marshal ctl sts relayInit = some s) :
    s.written = List.replicate s.written.length (marshal ⟨ctl.CTL_CONNECT_ME, 1⟩) ∧
    s.written.length ≤ s.enqueued.length ∧
    s.enqueued = s.localAccepted.take s.enqueued.length ∧
    (s.accPc = .accept →
      s.enqueued = s.localAccepted ∧ s.written.length = s.localAccepted.length) ∧
    (s.accPc = .accept → relayStep cap marshal ctl (.localAccept none) s = some s) := by
  obtain ⟨h1, _, _, h4, h5⟩ :=
    relayInv_run cap marshal ctl sts relayInit s (relayInv_init _) hrun
  refine ⟨h4, by omega, ?_, ?_, ?_⟩
  · rw [← h1]; simp
  · intro hpc
    rw [hpc] at h1 h5
    simp only [pendingSend, pendingWrite, List.append_nil, Nat.add_zero] at h1 h5
    exact ⟨h1, by rw [h5, h1]⟩
  · intro hpc
    rcases s with ⟨accPc, mainPc, buffer, la, ra, enq, wr, fw⟩
    simp only at hpc
    subst hpc
    simp [relayStep]

/-- C7 on a run with a failed accept followed by two accepted connections. -/
theorem C7_acceptor_witness :
    relayRun 2 sampleMarshal sampleCtl
        [.localAccept none, .localAccept (some 10), .enqueue, .write,
          .localAccept (some 11), .enqueue, .write] relayInit
      = some ⟨.accept, .accept, [10, 11], [10, 11], [], [10, 11], [[1, 1], [1, 1]], []⟩ ∧
    [[1, 1], [1, 1]] = List.replicate 2 (sampleMarshal ⟨sampleCtl.CTL_CONNECT_ME, 1⟩) :=
  ⟨by decide,
    (C7_acceptor 2 sampleMarshal sampleCtl
      [.localAccept none, .localAccept (some 10), .enqueue, .write,
        .localAccept (some 11), .enqueue, .write]
      ⟨.accept, .accept, [10, 11], [10, 11], [], [10, 11], [[1, 1], [1, 1]], []⟩
      (by decide)).1⟩

end Iox
